import Mathlib

/-!
Verification development for the emu-discord-bot activity tracker (`bot.py`).

The Python source is shallowly embedded:
* Python strings become `List Char` (so `str.replace` / `in` get faithful
  executable counterparts `replaceAll` / `strIn`);
* the sqlite `activities` table becomes an append-only `List DBRecord`
  whose row id is the list index;
* the OpenAI call becomes an oracle function `Message → LLMResult`
  supplied as a parameter; `get_llm_response` keeps its error contract
  (backend error ⇒ `Option.none`);
* the `parse_message` coroutine becomes a pure state transformer
  returning the new store, whether the classifier was invoked, the
  emoji reactions added, and the outcome (the unhandled `AttributeError`
  raised on `None.activities` is modelled as `ParseOutcome.errored`);
* the `llm_lock` discipline of `on_message` / `on_ready` is modelled as
  event traces over acquire/release/classifier-call events.
-/

/-- `class ActivityType(Enum)` from bot.py. -/
inductive ActivityType where
  | none
  | throwing
  | workout
  | watching
  | bonding
deriving DecidableEq, Repr

/-- `activity_points` dict; `.get(type, 0)` gives 0 for the missing key
(`ActivityType.none`). -/
def activity_points : ActivityType → Int
  | ActivityType.workout => 3
  | ActivityType.throwing => 2
  | ActivityType.watching => 2
  | ActivityType.bonding => 2
  | ActivityType.none => 0

/-- `max_activity_points` dict; `.get(type, None)` gives `None` for the
uncapped types (`throwing`, `bonding`) and the sentinel `none`. -/
def max_activity_points : ActivityType → Option Int
  | ActivityType.workout => some 6
  | ActivityType.watching => some 2
  | _ => Option.none

/-- `class ActivityLogResponse(BaseModel)`: one candidate activity from the
classifier.  Dates are abstracted as day numbers. -/
structure ActivityLogResponse where
  activity_type : ActivityType
  user_id : String
  date : Nat
  reason : String
deriving DecidableEq, Repr

/-- `class Response(BaseModel)`: the parsed classifier output. -/
structure Response where
  activities : List ActivityLogResponse
deriving DecidableEq, Repr

/-- One row of the sqlite `activities` table. -/
structure DBRecord where
  user_id : String
  date : Nat
  message_id : Nat
  activity_type : ActivityType
  points : Int
deriving DecidableEq, Repr

/-- The `activities` table: append-only, row id = index. -/
abbrev Store := List DBRecord

/-- `get_db_points_date_user`: `SELECT points FROM activities WHERE
activity_type = ? AND date = ? AND user_id = ?`. -/
def get_db_points_date_user (db : Store) (activity : ActivityType) (date : Nat)
    (user_id : String) : List Int :=
  (db.filter fun r =>
    r.activity_type == activity && r.date == date && r.user_id == user_id).map
    (fun r => r.points)

/-- `add_db_activity`: INSERT one row. -/
def add_db_activity (db : Store) (activity : ActivityLogResponse) (points : Int)
    (message_id : Nat) : Store :=
  db ++ [⟨activity.user_id, activity.date, message_id, activity.activity_type, points⟩]

/-- `record_activity_db`: cap-clamping insert.  Faithful to the source:
`new_points = min(limit - current_points, points)` — note there is no
`max(0, ...)` lower clamp in the code.  Returns the new store and the
awarded points. -/
def record_activity_db (db : Store) (activity : ActivityLogResponse)
    (message_id : Nat) : Store × Int :=
  let points := activity_points activity.activity_type
  match max_activity_points activity.activity_type with
  | Option.none => (add_db_activity db activity points message_id, points)
  | some limit =>
      let current_points :=
        (get_db_points_date_user db activity.activity_type activity.date
          activity.user_id).sum
      let new_points := min (limit - current_points) points
      (add_db_activity db activity new_points message_id, new_points)

/-- Helper for `get_db_message_id`: scan for the first row whose
`message_id` matches, returning its row id (index). -/
def findRowId (message_id : Nat) : Store → Nat → Option Nat
  | [], _ => Option.none
  | r :: rest, idx =>
      if r.message_id == message_id then some idx
      else findRowId message_id rest (idx + 1)

/-- `get_db_message_id`: `SELECT id FROM activities WHERE message_id = ?`,
`result[0] if result else None`. -/
def get_db_message_id (db : Store) (message_id : Nat) : Option Nat :=
  findRowId message_id db 0

/-- `activity_emoji_map` dict (no entry for `ActivityType.none`). -/
def activity_emoji_map : ActivityType → Option String
  | ActivityType.workout => some "🏋️"
  | ActivityType.throwing => some "🥏"
  | ActivityType.watching => some "📺"
  | ActivityType.bonding => some "🤝"
  | ActivityType.none => Option.none

/-- Python `s.startswith(pat)` on character lists (pattern first). -/
def listStartsWith : List Char → List Char → Bool
  | [], _ => true
  | _ :: _, [] => false
  | p :: ps, c :: cs => p == c && listStartsWith ps cs

/-- Python `pat in s` (substring containment). -/
def strIn (pat : List Char) : List Char → Bool
  | [] => listStartsWith pat []
  | c :: rest => listStartsWith pat (c :: rest) || strIn pat rest

/-- Recursion worker for `replaceAll`.  Structural recursion over a fuel
bounded below by the string length (each step consumes at least one
character, so the `0, s => s` arm is never reached from `replaceAll`). -/
def replaceAllGo (pat repl : List Char) : Nat → List Char → List Char
  | _, [] => []
  | 0, s => s
  | fuel + 1, c :: rest =>
      if listStartsWith pat (c :: rest) && !pat.isEmpty then
        repl ++ replaceAllGo pat repl fuel ((c :: rest).drop pat.length)
      else
        c :: replaceAllGo pat repl fuel rest

/-- Python `s.replace(pat, repl)`: replace all non-overlapping occurrences
left to right. -/
def replaceAll (pat repl s : List Char) : List Char :=
  replaceAllGo pat repl s.length s

/-- One entry of `message.mentions`: the user's numeric id and handle. -/
structure Mention where
  id : Nat
  name : List Char
deriving DecidableEq, Repr

/-- The f-string `f"<@!{user.id}>"` (nickname-form mention token). -/
def mentionBang (id : Nat) : List Char :=
  '<' :: '@' :: '!' :: ((toString id).toList ++ ['>'])

/-- The f-string `f"<@{user.id}>"` (plain-form mention token). -/
def mentionPlain (id : Nat) : List Char :=
  '<' :: '@' :: ((toString id).toList ++ ['>'])

/-- One iteration of the mention-rewriting loop in `parse_message`:
`mention_str = f"<@!{user.id}>" if f"<@!{user.id}>" in message.content else
f"<@{user.id}>"; message.content = message.content.replace(mention_str,
f"@{user.name}")`. -/
def normalizeMention (content : List Char) (u : Mention) : List Char :=
  let mention_str :=
    if strIn (mentionBang u.id) content then mentionBang u.id
    else mentionPlain u.id
  replaceAll mention_str ('@' :: u.name) content

/-- The whole `for user in message.mentions` loop. -/
def normalizeMentions (content : List Char) (mentions : List Mention) : List Char :=
  mentions.foldl normalizeMention content

/-- One inbound chat message as consumed by the pipeline.  `author_is_bot`
covers both the `message.author.bot` check in `on_message` and the
`message.author == bot.user` check in `parse_message` (the bot is the only
bot author the pipeline sees).  `send_date` is the day of
`message.created_at`. -/
structure Message where
  id : Nat
  author_name : String
  author_is_bot : Bool
  channel_name : String
  content : List Char
  mentions : List Mention
  send_date : Nat
deriving DecidableEq, Repr

/-- What `llm_client.responses.parse` hands back: either an error payload or
a response id plus the parsed `Response`. -/
inductive LLMResult where
  | err (message : String)
  | ok (response_id : String) (output_parsed : Response)
deriving DecidableEq, Repr

/-- `get_llm_response`: on a backend error it logs and returns `None`
(distinguishable from a parsed response with zero activities); otherwise it
returns `response.output_parsed`. -/
def get_llm_response (backend : LLMResult) : Option Response :=
  match backend with
  | LLMResult.err _ => Option.none
  | LLMResult.ok _ parsed => some parsed

/-- Terminal status of one `parse_message` run.  `errored` models the
uncaught `AttributeError` raised by `response.activities` when
`get_llm_response` returned `None`. -/
inductive ParseOutcome where
  | skipped
  | errored
  | done (response : Response)
deriving DecidableEq, Repr

/-- Result of one `parse_message` run: the store afterwards, whether the
classifier was invoked, the emoji reactions added to the message (in call
order), and the outcome. -/
structure ParseResult where
  store : Store
  llm_called : Bool
  emissions : List String
  outcome : ParseOutcome
deriving DecidableEq, Repr

/-- The `for activity in response.activities` loop at the end of
`parse_message`: a `none` activity is persisted with 0 points and no
reaction; any other activity goes through `record_activity_db` and then
`message.add_reaction(activity_emoji_map.get(type, "❓"))`. -/
def recordActivities (message_id : Nat) :
    Store × List String → List ActivityLogResponse → Store × List String
  | acc, [] => acc
  | (db, emissions), activity :: rest =>
      if activity.activity_type == ActivityType.none then
        recordActivities message_id
          (add_db_activity db activity 0 message_id, emissions) rest
      else
        recordActivities message_id
          ((record_activity_db db activity message_id).1,
            emissions ++ [(activity_emoji_map activity.activity_type).getD "❓"]) rest

/-- `parse_message`: guards (bot author, wrong channel, blank content,
already-recorded message id), then mention normalization, then the
classifier call, then the per-activity recording loop.  The classifier is
the oracle parameter; it receives the message with normalized content
(`message.content` is rewritten in place before the call in the source). -/
def parse_message (oracle : Message → LLMResult) (db : Store)
    (message : Message) : ParseResult :=
  if message.author_is_bot then ⟨db, false, [], ParseOutcome.skipped⟩
  else if message.channel_name ≠ "challenges" then ⟨db, false, [], ParseOutcome.skipped⟩
  else if message.content.all (fun c => c.isWhitespace) then ⟨db, false, [], ParseOutcome.skipped⟩
  else if (get_db_message_id db message.id).isSome then ⟨db, false, [], ParseOutcome.skipped⟩
  else
    match get_llm_response
        (oracle { message with content := normalizeMentions message.content message.mentions }) with
    | Option.none => ⟨db, true, [], ParseOutcome.errored⟩
    | some response =>
        let result := recordActivities message.id (db, []) response.activities
        ⟨result.1, true, result.2, ParseOutcome.done response⟩

/-- Lock/classifier events of the two handlers. -/
inductive Ev where
  | acquire
  | release
  | llmCall
deriving DecidableEq, Repr

/-- Event trace of `on_message`: skip bot authors, else `async with
llm_lock: await parse_message(message)`. -/
def on_message_trace (oracle : Message → LLMResult) (db : Store)
    (message : Message) : List Ev :=
  if message.author_is_bot then []
  else
    [Ev.acquire]
      ++ (if (parse_message oracle db message).llm_called then [Ev.llmCall] else [])
      ++ [Ev.release]

/-- Event trace of the history replay in `on_ready`: `async for message in
channel.history(...): await parse_message(message)` — no lock is taken. -/
def on_ready_trace (oracle : Message → LLMResult) : Store → List Message → List Ev
  | _, [] => []
  | db, m :: rest =>
      (if (parse_message oracle db m).llm_called then [Ev.llmCall] else [])
        ++ on_ready_trace oracle (parse_message oracle db m).store rest

/-- A trace serializes classifier calls under the lock when every `llmCall`
happens at positive lock depth. -/
def lockedAt : List Ev → Nat → Bool
  | [], _ => true
  | Ev.acquire :: es, d => lockedAt es (d + 1)
  | Ev.release :: es, d => lockedAt es (d - 1)
  | Ev.llmCall :: es, d => decide (0 < d) && lockedAt es d

/-- Date validation for `ActivityLogResponse`: the pydantic field default
`date: datetime.date = datetime.date.today()` is evaluated once, when the
class body runs at module import, so a date the classifier leaves
unspecified is filled with the process-start date, not with anything
derived from the message being processed. -/
def parseClassifierDate (process_start_date : Nat) (raw_date : Option Nat) : Nat :=
  raw_date.getD process_start_date

/-- Stores reachable from the empty table by running the `parse_message`
pipeline, with an arbitrary classifier oracle and message at each step. -/
inductive ReachableStore : Store → Prop where
  | empty : ReachableStore []
  | step (oracle : Message → LLMResult) (m : Message) {db : Store} :
      ReachableStore db → ReachableStore (parse_message oracle db m).store

/-- Join segments with a separator; used to state which strings consist of
exactly `segs.length - 1` occurrences of `sep` with `sep`-free text between
them. -/
def glueWith (sep : List Char) : List (List Char) → List Char
  | [] => []
  | [s] => s
  | s :: a :: rest => s ++ sep ++ glueWith sep (a :: rest)

/-! ## Helper lemmas about the store operations -/

lemma findRowId_isSome (mid : Nat) :
    ∀ (l : Store) (i : Nat), (∃ r ∈ l, r.message_id = mid) →
      (findRowId mid l i).isSome = true := by
  intro l
  induction l with
  | nil => rintro i ⟨r, hr, -⟩; cases hr
  | cons x xs ih =>
      rintro i ⟨r, hr, hmid⟩
      by_cases hx : x.message_id == mid
      · simp [findRowId, hx]
      · rcases List.mem_cons.mp hr with rfl | hr'
        · exact absurd (beq_iff_eq.mpr hmid) hx
        · simpa [findRowId, hx] using ih (i + 1) ⟨r, hr', hmid⟩

lemma get_db_message_id_isSome (db : Store) (mid : Nat)
    (h : ∃ r ∈ db, r.message_id = mid) :
    (get_db_message_id db mid).isSome = true :=
  findRowId_isSome mid db 0 h

lemma record_activity_db_store (db : Store) (a : ActivityLogResponse) (mid : Nat) :
    (record_activity_db db a mid).1 =
      db ++ [⟨a.user_id, a.date, mid, a.activity_type, (record_activity_db db a mid).2⟩] := by
  unfold record_activity_db add_db_activity
  cases h : max_activity_points a.activity_type <;> simp [h]

lemma record_activity_db_capped (db : Store) (a : ActivityLogResponse) (mid : Nat)
    (cap : Int) (hcap : max_activity_points a.activity_type = some cap) :
    (record_activity_db db a mid).2 =
      min (cap - (get_db_points_date_user db a.activity_type a.date a.user_id).sum)
        (activity_points a.activity_type) := by
  unfold record_activity_db
  rw [hcap]

lemma activity_points_nonneg (t : ActivityType) : 0 ≤ activity_points t := by
  cases t <;> decide

lemma capped_ne_none {t : ActivityType} {cap : Int}
    (hcap : max_activity_points t = some cap) : t ≠ ActivityType.none := by
  rintro rfl
  simp [max_activity_points] at hcap

/-- Appending one row changes the per-(type, date, user) sum by the row's
points when the row matches, and not at all otherwise. -/
lemma points_sum_append (db : Store) (r : DBRecord) (t : ActivityType) (d : Nat)
    (u : String) :
    (get_db_points_date_user (db ++ [r]) t d u).sum =
      (get_db_points_date_user db t d u).sum +
        (if r.activity_type == t && r.date == d && r.user_id == u then r.points else 0) := by
  unfold get_db_points_date_user
  rw [List.filter_append, List.map_append, List.sum_append]
  by_cases h : r.activity_type == t && r.date == d && r.user_id == u <;> simp [h]

/-- `points_sum_append` specialised to a row built from a candidate
activity (projections reduced). -/
lemma points_sum_append_activity (db : Store) (a : ActivityLogResponse) (mid : Nat)
    (pts : Int) (t : ActivityType) (d : Nat) (u : String) :
    (get_db_points_date_user
        (db ++ [⟨a.user_id, a.date, mid, a.activity_type, pts⟩]) t d u).sum =
      (get_db_points_date_user db t d u).sum +
        (if a.activity_type == t && a.date == d && a.user_id == u then pts else 0) := by
  rw [points_sum_append]

/-! ## Helper lemmas about the per-activity recording loop -/

/-- The loop only appends rows, one per candidate, all keyed by the
message id. -/
lemma recordActivities_store (mid : Nat) :
    ∀ (acts : List ActivityLogResponse) (db : Store) (em : List String),
      ∃ extra : List DBRecord,
        (recordActivities mid (db, em) acts).1 = db ++ extra ∧
        extra.length = acts.length ∧
        ∀ r ∈ extra, r.message_id = mid := by
  intro acts
  induction acts with
  | nil => intro db em; exact ⟨[], by simp [recordActivities], rfl, by simp⟩
  | cons a rest ih =>
      intro db em
      by_cases h : a.activity_type == ActivityType.none
      · obtain ⟨extra, hst, hlen, hmid⟩ := ih (add_db_activity db a 0 mid) em
        refine ⟨⟨a.user_id, a.date, mid, a.activity_type, 0⟩ :: extra, ?_, by simp [hlen], ?_⟩
        · simpa [recordActivities, h, add_db_activity] using hst
        · intro r hr
          rcases List.mem_cons.mp hr with rfl | hr'
          · rfl
          · exact hmid r hr'
      · obtain ⟨extra, hst, hlen, hmid⟩ := ih (record_activity_db db a mid).1
            (em ++ [(activity_emoji_map a.activity_type).getD "❓"])
        refine ⟨⟨a.user_id, a.date, mid, a.activity_type, (record_activity_db db a mid).2⟩ :: extra,
          ?_, by simp [hlen], ?_⟩
        · rw [recordActivities, if_neg (by simpa using h)]
          rw [hst, record_activity_db_store]
          simp
        · intro r hr
          rcases List.mem_cons.mp hr with rfl | hr'
          · rfl
          · exact hmid r hr'

/-- A `none` candidate leaves a zero-point `none` row for the message in
the final store. -/
lemma recordActivities_none_record (mid : Nat) :
    ∀ (acts : List ActivityLogResponse) (a : ActivityLogResponse),
      a ∈ acts → a.activity_type = ActivityType.none →
      ∀ (db : Store) (em : List String),
        ∃ r ∈ (recordActivities mid (db, em) acts).1,
          r.message_id = mid ∧ r.activity_type = ActivityType.none ∧ r.points = 0 := by
  intro acts
  induction acts with
  | nil => intro a ha; cases ha
  | cons b rest ih =>
      intro a ha hnone db em
      rcases List.mem_cons.mp ha with rfl | ha'
      · obtain ⟨extra, hst, -, -⟩ :=
          recordActivities_store mid rest (add_db_activity db a 0 mid) em
        refine ⟨⟨a.user_id, a.date, mid, a.activity_type, 0⟩, ?_, rfl, hnone, rfl⟩
        rw [recordActivities, if_pos (beq_iff_eq.mpr hnone), hst]
        simp [add_db_activity]
      · by_cases h : b.activity_type == ActivityType.none
        · obtain ⟨r, hr, hprops⟩ := ih a ha' hnone (add_db_activity db b 0 mid) em
          exact ⟨r, by simpa [recordActivities, h] using hr, hprops⟩
        · obtain ⟨r, hr, hprops⟩ := ih a ha' hnone (record_activity_db db b mid).1
            (em ++ [(activity_emoji_map b.activity_type).getD "❓"])
          refine ⟨r, ?_, hprops⟩
          rw [recordActivities, if_neg (by simpa using h)]
          exact hr

/-- The loop emits exactly one emoji per non-`none` candidate, in order. -/
lemma recordActivities_emissions (mid : Nat) :
    ∀ (acts : List ActivityLogResponse) (db : Store) (em : List String),
      (recordActivities mid (db, em) acts).2 =
        em ++ (acts.filter fun a => a.activity_type != ActivityType.none).map
          (fun a => (activity_emoji_map a.activity_type).getD "❓") := by
  intro acts
  induction acts with
  | nil => intro db em; simp [recordActivities]
  | cons a rest ih =>
      intro db em
      by_cases h : a.activity_type == ActivityType.none
      · rw [recordActivities, if_pos h, ih]
        simp only [List.filter_cons, bne, h]
        rfl
      · rw [recordActivities, if_neg (by simpa using h), ih]
        simp only [List.filter_cons, bne, h]
        simp

/-- The loop never pushes a capped per-(type, date, user) sum above the cap. -/
lemma recordActivities_cap (mid : Nat) (t : ActivityType) (cap : Int)
    (hcap : max_activity_points t = some cap) (d : Nat) (u : String) :
    ∀ (acts : List ActivityLogResponse) (db : Store) (em : List String),
      (get_db_points_date_user db t d u).sum ≤ cap →
      (get_db_points_date_user (recordActivities mid (db, em) acts).1 t d u).sum ≤ cap := by
  intro acts
  induction acts with
  | nil => intro db em h; simpa [recordActivities] using h
  | cons a rest ih =>
      intro db em h
      by_cases ha : a.activity_type == ActivityType.none
      · rw [recordActivities, if_pos ha]
        apply ih
        unfold add_db_activity
        rw [points_sum_append_activity]
        have hne : (a.activity_type == t) = false := by
          apply beq_eq_false_iff_ne.mpr
          intro heq
          have ha' := beq_iff_eq.mp ha
          rw [heq] at ha'
          exact capped_ne_none hcap ha'
        simp only [hne, Bool.false_and, if_false]
        simpa using h
      · rw [recordActivities, if_neg (by simpa using ha)]
        apply ih
        rw [record_activity_db_store, points_sum_append_activity]
        by_cases hm : a.activity_type == t && a.date == d && a.user_id == u
        · obtain ⟨⟨hm1, hm2⟩, hm3⟩ := by simpa only [Bool.and_eq_true] using hm
          have h1 : a.activity_type = t := beq_iff_eq.mp hm1
          have h2 : a.date = d := beq_iff_eq.mp hm2
          have h3 : a.user_id = u := beq_iff_eq.mp hm3
          rw [if_pos hm]
          have hcap' : max_activity_points a.activity_type = some cap := by
            rw [h1]; exact hcap
          rw [record_activity_db_capped db a mid cap hcap', h1, h2, h3]
          have hmin := min_le_left (cap - (get_db_points_date_user db t d u).sum)
            (activity_points t)
          omega
        · rw [if_neg hm]
          simpa using h

/-! ## Case lemmas for `parse_message` -/

/-- Exact replay guard: a message whose id already has a row is skipped
with no classifier call and no store change. -/
lemma parse_message_seen (oracle : Message → LLMResult) (db : Store) (m : Message)
    (h : (get_db_message_id db m.id).isSome = true) :
    parse_message oracle db m = ⟨db, false, [], ParseOutcome.skipped⟩ := by
  unfold parse_message
  split_ifs <;> simp_all

/-- Guards passed and the backend errored. -/
lemma parse_message_err (oracle : Message → LLMResult) (db : Store) (m : Message)
    (hbot : m.author_is_bot = false)
    (hch : m.channel_name = "challenges")
    (hcontent : (m.content.all fun c => c.isWhitespace) = false)
    (hguard : get_db_message_id db m.id = Option.none)
    (e : String)
    (ho : oracle { m with content := normalizeMentions m.content m.mentions } =
      LLMResult.err e) :
    parse_message oracle db m = ⟨db, true, [], ParseOutcome.errored⟩ := by
  unfold parse_message
  rw [ho]
  simp [hbot, hch, hcontent, hguard, get_llm_response]

/-- Guards passed and the backend returned a parsed response. -/
lemma parse_message_ok (oracle : Message → LLMResult) (db : Store) (m : Message)
    (hbot : m.author_is_bot = false)
    (hch : m.channel_name = "challenges")
    (hcontent : (m.content.all fun c => c.isWhitespace) = false)
    (hguard : get_db_message_id db m.id = Option.none)
    (rid : String) (resp : Response)
    (ho : oracle { m with content := normalizeMentions m.content m.mentions } =
      LLMResult.ok rid resp) :
    parse_message oracle db m =
      ⟨(recordActivities m.id (db, []) resp.activities).1, true,
        (recordActivities m.id (db, []) resp.activities).2,
        ParseOutcome.done resp⟩ := by
  unfold parse_message
  rw [ho]
  simp [hbot, hch, hcontent, hguard, get_llm_response]

/-- Each run either leaves the store alone or runs the recording loop on
some parsed response. -/
lemma parse_message_store_cases (oracle : Message → LLMResult) (db : Store)
    (m : Message) :
    (parse_message oracle db m).store = db ∨
    ∃ resp : Response,
      (parse_message oracle db m).store =
        (recordActivities m.id (db, []) resp.activities).1 := by
  unfold parse_message
  split_ifs <;> try exact Or.inl rfl
  cases hr : get_llm_response
      (oracle { m with content := normalizeMentions m.content m.mentions }) with
  | none => exact Or.inl rfl
  | some resp => exact Or.inr ⟨resp, rfl⟩

/-- One pipeline step preserves the per-(type, date, user) cap bound. -/
lemma parse_message_cap (oracle : Message → LLMResult) (db : Store) (m : Message)
    (t : ActivityType) (cap : Int) (hcap : max_activity_points t = some cap)
    (d : Nat) (u : String)
    (h : (get_db_points_date_user db t d u).sum ≤ cap) :
    (get_db_points_date_user (parse_message oracle db m).store t d u).sum ≤ cap := by
  rcases parse_message_store_cases oracle db m with hs | ⟨resp, hs⟩
  · rw [hs]; exact h
  · rw [hs]; exact recordActivities_cap m.id t cap hcap d u resp.activities db [] h

/-! ## Helper lemmas about substring search and replacement -/

lemma listStartsWith_append_self : ∀ (pat t : List Char),
    listStartsWith pat (pat ++ t) = true := by
  intro pat t
  induction pat with
  | nil => rfl
  | cons p ps ih => simp [listStartsWith, ih]

/-- Scanning a stretch that avoids the pattern's first character finds
nothing there. -/
lemma strIn_append_head_free (p : Char) (pt : List Char) :
    ∀ (s t : List Char), (∀ c ∈ s, c ≠ p) →
      strIn (p :: pt) (s ++ t) = strIn (p :: pt) t := by
  intro s
  induction s with
  | nil => intro t h; rfl
  | cons c s ih =>
      intro t h
      have hc : c ≠ p := h c (List.mem_cons_self c s)
      have hsw : listStartsWith (p :: pt) (c :: (s ++ t)) = false := by
        simp [listStartsWith, beq_eq_false_iff_ne.mpr (Ne.symm hc)]
      have step : strIn (p :: pt) ((c :: s) ++ t) =
          (listStartsWith (p :: pt) (c :: (s ++ t)) || strIn (p :: pt) (s ++ t)) := rfl
      rw [step, hsw, Bool.false_or]
      exact ih t (fun c' hc' => h c' (List.mem_cons_of_mem c hc'))

lemma strIn_head_free (p : Char) (pt : List Char) (s : List Char)
    (h : ∀ c ∈ s, c ≠ p) : strIn (p :: pt) s = false := by
  have h0 : strIn (p :: pt) ([] : List Char) = false := by
    simp [strIn, listStartsWith]
  have := strIn_append_head_free p pt s [] h
  rw [List.append_nil] at this
  rw [this, h0]

lemma strIn_self_append (p : Char) (pt t : List Char) :
    strIn (p :: pt) ((p :: pt) ++ t) = true := by
  have step : strIn (p :: pt) ((p :: pt) ++ t) =
      (listStartsWith (p :: pt) ((p :: pt) ++ t) || strIn (p :: pt) (pt ++ t)) := rfl
  rw [step, listStartsWith_append_self]
  simp

lemma replaceAllGo_fuel (pat repl : List Char) :
    ∀ (f₁ : Nat) (s : List Char) (f₂ : Nat), s.length ≤ f₁ → s.length ≤ f₂ →
      replaceAllGo pat repl f₁ s = replaceAllGo pat repl f₂ s := by
  intro f₁
  induction f₁ with
  | zero =>
      intro s f₂ h1 h2
      have hs : s = [] := List.length_eq_zero.mp (Nat.le_zero.mp h1)
      subst hs
      cases f₂ <;> rfl
  | succ f ih =>
      intro s f₂ h1 h2
      cases s with
      | nil => cases f₂ <;> rfl
      | cons c rest =>
          obtain ⟨f₂', rfl⟩ : ∃ k, f₂ = k + 1 := by
            cases f₂ with
            | zero => simp at h2
            | succ k => exact ⟨k, rfl⟩
          show (if listStartsWith pat (c :: rest) && !pat.isEmpty then
              repl ++ replaceAllGo pat repl f ((c :: rest).drop pat.length)
            else c :: replaceAllGo pat repl f rest) =
            (if listStartsWith pat (c :: rest) && !pat.isEmpty then
              repl ++ replaceAllGo pat repl f₂' ((c :: rest).drop pat.length)
            else c :: replaceAllGo pat repl f₂' rest)
          by_cases hcond : listStartsWith pat (c :: rest) && !pat.isEmpty
          · rw [if_pos hcond, if_pos hcond]
            have hpat : 1 ≤ pat.length := by
              have hcond' := hcond
              simp only [Bool.and_eq_true] at hcond'
              obtain ⟨-, hne⟩ := hcond'
              cases pat with
              | nil => simp [List.isEmpty] at hne
              | cons _ _ => simp
            have hlen : ((c :: rest).drop pat.length).length ≤ f := by
              simp only [List.length_drop, List.length_cons]
              simp only [List.length_cons] at h1
              omega
            have hlen2 : ((c :: rest).drop pat.length).length ≤ f₂' := by
              simp only [List.length_drop, List.length_cons]
              simp only [List.length_cons] at h2
              omega
            rw [ih _ _ hlen hlen2]
          · rw [if_neg hcond, if_neg hcond]
            have hlen : rest.length ≤ f := by
              simp only [List.length_cons] at h1; omega
            have hlen2 : rest.length ≤ f₂' := by
              simp only [List.length_cons] at h2; omega
            rw [ih _ _ hlen hlen2]

/-- The defining equation of Python `str.replace` on a nonempty string. -/
lemma replaceAll_cons (pat repl : List Char) (c : Char) (rest : List Char) :
    replaceAll pat repl (c :: rest) =
      if listStartsWith pat (c :: rest) && !pat.isEmpty then
        repl ++ replaceAll pat repl ((c :: rest).drop pat.length)
      else c :: replaceAll pat repl rest := by
  unfold replaceAll
  show (if listStartsWith pat (c :: rest) && !pat.isEmpty then
      repl ++ replaceAllGo pat repl rest.length ((c :: rest).drop pat.length)
    else c :: replaceAllGo pat repl rest.length rest) = _
  by_cases hcond : listStartsWith pat (c :: rest) && !pat.isEmpty
  · rw [if_pos hcond, if_pos hcond]
    have hpat : 1 ≤ pat.length := by
      have hcond' := hcond
      simp only [Bool.and_eq_true] at hcond'
      obtain ⟨-, hne⟩ := hcond'
      cases pat with
      | nil => simp [List.isEmpty] at hne
      | cons _ _ => simp
    have hlen : ((c :: rest).drop pat.length).length ≤ rest.length := by
      simp only [List.length_drop, List.length_cons]
      omega
    rw [replaceAllGo_fuel pat repl rest.length _ _ hlen (le_refl _)]
  · rw [if_neg hcond, if_neg hcond]

lemma replaceAll_nil (pat repl : List Char) : replaceAll pat repl [] = [] := rfl

/-- Replacement walks untouched over a stretch that avoids the pattern's
first character. -/
lemma replaceAll_append_head_free (p : Char) (pt repl : List Char) :
    ∀ (s t : List Char), (∀ c ∈ s, c ≠ p) →
      replaceAll (p :: pt) repl (s ++ t) = s ++ replaceAll (p :: pt) repl t := by
  intro s
  induction s with
  | nil => intro t h; rfl
  | cons c s ih =>
      intro t h
      have hc : c ≠ p := h c (List.mem_cons_self c s)
      have hsw : listStartsWith (p :: pt) (c :: (s ++ t)) = false := by
        simp [listStartsWith, beq_eq_false_iff_ne.mpr (Ne.symm hc)]
      have step := replaceAll_cons (p :: pt) repl c (s ++ t)
      rw [hsw] at step
      simp only [Bool.false_and, if_false] at step
      calc replaceAll (p :: pt) repl ((c :: s) ++ t)
          = replaceAll (p :: pt) repl (c :: (s ++ t)) := rfl
        _ = c :: replaceAll (p :: pt) repl (s ++ t) := step
        _ = c :: (s ++ replaceAll (p :: pt) repl t) :=
            congrArg _ (ih t (fun c' hc' => h c' (List.mem_cons_of_mem c hc')))
        _ = (c :: s) ++ replaceAll (p :: pt) repl t := rfl

lemma replaceAll_head_free (p : Char) (pt repl : List Char) (s : List Char)
    (h : ∀ c ∈ s, c ≠ p) : replaceAll (p :: pt) repl s = s := by
  have := replaceAll_append_head_free p pt repl s [] h
  rw [List.append_nil] at this
  rw [this, replaceAll_nil, List.append_nil]

/-- Replacement fires exactly at an occurrence of the pattern. -/
lemma replaceAll_self_append (p : Char) (pt repl t : List Char) :
    replaceAll (p :: pt) repl ((p :: pt) ++ t) =
      repl ++ replaceAll (p :: pt) repl t := by
  have step := replaceAll_cons (p :: pt) repl p (pt ++ t)
  have hsw : listStartsWith (p :: pt) (p :: (pt ++ t)) = true :=
    listStartsWith_append_self (p :: pt) t
  rw [hsw] at step
  simp only [List.isEmpty_cons, Bool.not_false, Bool.and_true, if_true] at step
  have hdrop : ((p :: pt) ++ t).drop (p :: pt).length = t :=
    List.drop_left (p :: pt) t
  calc replaceAll (p :: pt) repl ((p :: pt) ++ t)
      = replaceAll (p :: pt) repl (p :: (pt ++ t)) := rfl
    _ = repl ++ replaceAll (p :: pt) repl ((p :: (pt ++ t)).drop (p :: pt).length) := step
    _ = repl ++ replaceAll (p :: pt) repl t := by rw [show (p :: (pt ++ t)) = (p :: pt) ++ t from rfl, hdrop]

/-- Replacing the separator pattern of a glued string replaces every
occurrence and nothing else. -/
lemma glueWith_replace (p : Char) (pt repl : List Char) :
    ∀ (segs : List (List Char)), (∀ s ∈ segs, ∀ c ∈ s, c ≠ p) →
      replaceAll (p :: pt) repl (glueWith (p :: pt) segs) = glueWith repl segs := by
  intro segs
  induction segs with
  | nil => intro _; rfl
  | cons s rest ih =>
      intro h
      cases rest with
      | nil =>
          exact replaceAll_head_free p pt repl s (h s (List.mem_cons_self s []))
      | cons a rest' =>
          have hs : ∀ c ∈ s, c ≠ p := h s (List.mem_cons_self s _)
          have h' : ∀ x ∈ a :: rest', ∀ c ∈ x, c ≠ p :=
            fun x hx => h x (List.mem_cons_of_mem s hx)
          calc replaceAll (p :: pt) repl (glueWith (p :: pt) (s :: a :: rest'))
              = replaceAll (p :: pt) repl (s ++ ((p :: pt) ++ glueWith (p :: pt) (a :: rest'))) := by
                simp [glueWith]
            _ = s ++ replaceAll (p :: pt) repl ((p :: pt) ++ glueWith (p :: pt) (a :: rest')) :=
                replaceAll_append_head_free p pt repl s _ hs
            _ = s ++ (repl ++ replaceAll (p :: pt) repl (glueWith (p :: pt) (a :: rest'))) := by
                rw [replaceAll_self_append]
            _ = s ++ (repl ++ glueWith repl (a :: rest')) := by rw [ih h']
            _ = glueWith repl (s :: a :: rest') := by simp [glueWith]

/-- A glued string with at least two segments contains its separator. -/
lemma strIn_glueWith_sep (p : Char) (pt : List Char) (s a : List Char)
    (rest : List (List Char)) (hs : ∀ c ∈ s, c ≠ p) :
    strIn (p :: pt) (glueWith (p :: pt) (s :: a :: rest)) = true := by
  have hglue : glueWith (p :: pt) (s :: a :: rest) =
      s ++ ((p :: pt) ++ glueWith (p :: pt) (a :: rest)) := by simp [glueWith]
  rw [hglue, strIn_append_head_free p pt s _ hs, strIn_self_append]

/-! ## Mention-token lemmas -/

lemma isDigit_ne_lt {c : Char} (h : c.isDigit = true) : c ≠ '<' := by
  rintro rfl
  exact absurd h (by decide)

lemma isDigit_ne_bang {c : Char} (h : c.isDigit = true) : c ≠ '!' := by
  rintro rfl
  exact absurd h (by decide)

/-- The characters of a mention token after the leading `<` never include
another `<` (the id renders as digits, then `>`). -/
lemma mentionPlain_tail_free (id : Nat)
    (hid : ∀ c ∈ (toString id).toList, c.isDigit = true) :
    ∀ c ∈ '@' :: ((toString id).toList ++ ['>']), c ≠ '<' := by
  intro c hc
  rcases List.mem_cons.mp hc with rfl | hc'
  · decide
  · rcases List.mem_append.mp hc' with hd | hgt
    · exact isDigit_ne_lt (hid c hd)
    · rcases List.mem_singleton.mp hgt with rfl
      decide

/-- The bang-form token never starts at a plain-form token: the third
character would have to be `!`, but it is a digit or `>`. -/
lemma listStartsWith_bang_plain (id : Nat)
    (hid : ∀ c ∈ (toString id).toList, c.isDigit = true) (t : List Char) :
    listStartsWith (mentionBang id) (mentionPlain id ++ t) = false := by
  show listStartsWith ('<' :: '@' :: '!' :: ((toString id).toList ++ ['>']))
      ('<' :: '@' :: (((toString id).toList ++ ['>']) ++ t)) = false
  simp only [listStartsWith, beq_self_eq_true, Bool.true_and]
  cases hd : (toString id).toList with
  | nil => simp [listStartsWith]
  | cons c cs =>
      have hdc : c.isDigit = true := hid c (by rw [hd]; exact List.mem_cons_self c cs)
      simp [listStartsWith, beq_eq_false_iff_ne.mpr (Ne.symm (isDigit_ne_bang hdc))]

/-- Searching for the bang-form token skips right over a plain-form token. -/
lemma strIn_bang_skips_plain (id : Nat)
    (hid : ∀ c ∈ (toString id).toList, c.isDigit = true) (t : List Char) :
    strIn (mentionBang id) (mentionPlain id ++ t) = strIn (mentionBang id) t := by
  have step : strIn (mentionBang id) (mentionPlain id ++ t) =
      (listStartsWith (mentionBang id) (mentionPlain id ++ t) ||
        strIn (mentionBang id) (('@' :: ((toString id).toList ++ ['>'])) ++ t)) := rfl
  rw [step, listStartsWith_bang_plain id hid, Bool.false_or]
  exact strIn_append_head_free '<'
    ('@' :: '!' :: ((toString id).toList ++ ['>']))
    ('@' :: ((toString id).toList ++ ['>'])) t (mentionPlain_tail_free id hid)

/-- The bang-form token occurs nowhere in a message built from `<`-free
segments glued with plain-form tokens. -/
lemma strIn_bang_glueWith_plain (id : Nat)
    (hid : ∀ c ∈ (toString id).toList, c.isDigit = true) :
    ∀ (segs : List (List Char)), (∀ s ∈ segs, ∀ c ∈ s, c ≠ '<') →
      strIn (mentionBang id) (glueWith (mentionPlain id) segs) = false := by
  intro segs
  induction segs with
  | nil => intro _; rfl
  | cons s rest ih =>
      intro h
      cases rest with
      | nil =>
          exact strIn_head_free '<' ('@' :: '!' :: ((toString id).toList ++ ['>'])) s
            (h s (List.mem_cons_self s []))
      | cons a rest' =>
          have hs : ∀ c ∈ s, c ≠ '<' := h s (List.mem_cons_self s _)
          have h' : ∀ x ∈ a :: rest', ∀ c ∈ x, c ≠ '<' :=
            fun x hx => h x (List.mem_cons_of_mem s hx)
          have hglue : glueWith (mentionPlain id) (s :: a :: rest') =
              s ++ (mentionPlain id ++ glueWith (mentionPlain id) (a :: rest')) := by
            simp [glueWith]
          rw [hglue]
          have e1 : strIn (mentionBang id)
                (s ++ (mentionPlain id ++ glueWith (mentionPlain id) (a :: rest'))) =
              strIn (mentionBang id)
                (mentionPlain id ++ glueWith (mentionPlain id) (a :: rest')) :=
            strIn_append_head_free '<' ('@' :: '!' :: ((toString id).toList ++ ['>'])) s _ hs
          rw [e1, strIn_bang_skips_plain id hid]
          exact ih h'

/-! ## Lock-trace lemmas -/

/-- The replay trace consists of classifier-call events only: `on_ready`
acquires no lock. -/
lemma on_ready_trace_events (oracle : Message → LLMResult) :
    ∀ (msgs : List Message) (db : Store),
      ∀ e ∈ on_ready_trace oracle db msgs, e = Ev.llmCall := by
  intro msgs
  induction msgs with
  | nil => intro db e he; cases he
  | cons m rest ih =>
      intro db e he
      unfold on_ready_trace at he
      rcases List.mem_append.mp he with h1 | h2
      · by_cases hc : (parse_message oracle db m).llm_called
        · rw [if_pos hc] at h1
          rcases List.mem_singleton.mp h1 with rfl
          rfl
        · rw [if_neg hc] at h1
          cases h1
      · exact ih (parse_message oracle db m).store e h2

/-- A trace that never acquires the lock fails the serialization check as
soon as it performs a classifier call. -/
lemma lockedAt_zero_of_calls (es : List Ev)
    (hall : ∀ e ∈ es, e = Ev.llmCall) (hc : es.contains Ev.llmCall = true) :
    lockedAt es 0 = false := by
  cases es with
  | nil => simp [List.contains] at hc
  | cons e es' =>
      have : e = Ev.llmCall := hall e (List.mem_cons_self e es')
      subst this
      simp [lockedAt]

/-! ## Claim theorems -/

/-- C1 (counterexample): the claim's award formula `max(0, min(B, C - S))`
and its "never a negative award" promise fail on the code.  With a prior
persisted workout sum of 7 (cap 6, base 3), `record_activity_db` computes
`min(6 - 7, 3) = -1`: it returns a negative award and persists a record
with negative points, where the claim demands `max(0, min(3, -1)) = 0`. -/
theorem record_activity_negative_award_above_cap :
    (record_activity_db [⟨"u", 1, 1, ActivityType.workout, 7⟩]
        ⟨ActivityType.workout, "u", 1, "lifted"⟩ 2).2 = -1
    ∧ (record_activity_db [⟨"u", 1, 1, ActivityType.workout, 7⟩]
        ⟨ActivityType.workout, "u", 1, "lifted"⟩ 2).2 ≠
      max 0 (min (activity_points ActivityType.workout)
        (6 - (get_db_points_date_user [⟨"u", 1, 1, ActivityType.workout, 7⟩]
          ActivityType.workout 1 "u").sum))
    ∧ ∃ r ∈ (record_activity_db [⟨"u", 1, 1, ActivityType.workout, 7⟩]
        ⟨ActivityType.workout, "u", 1, "lifted"⟩ 2).1, r.points < 0 := by
  refine ⟨by decide, by decide, ?_⟩
  exact ⟨⟨"u", 1, 2, ActivityType.workout, -1⟩, by decide, by decide⟩

/-- C1 (amended): for a capped type with cap C, base B and prior
same-(user, date, type) persisted sum S, `record_activity_db` persists
exactly one record and returns `awarded = min(B, C - S)`; whenever
S ≤ C — in particular on every store the pipeline itself produces — this
coincides with the claimed `max(0, min(B, C - S))`, so a user at the cap
still gets a record with `awarded = 0` and is never rejected.  The two
formulas differ only on stores with S > C, where the code awards the
negative `C - S`. -/
theorem record_activity_award_formula (db : Store) (a : ActivityLogResponse)
    (mid : Nat) (cap : Int)
    (hcap : max_activity_points a.activity_type = some cap) :
    (record_activity_db db a mid).2 =
      min (cap - (get_db_points_date_user db a.activity_type a.date a.user_id).sum)
        (activity_points a.activity_type)
    ∧ (record_activity_db db a mid).1 =
      db ++ [⟨a.user_id, a.date, mid, a.activity_type, (record_activity_db db a mid).2⟩]
    ∧ ((get_db_points_date_user db a.activity_type a.date a.user_id).sum ≤ cap →
        (record_activity_db db a mid).2 =
          max 0 (min (activity_points a.activity_type)
            (cap - (get_db_points_date_user db a.activity_type a.date a.user_id).sum))) := by
  refine ⟨record_activity_db_capped db a mid cap hcap, record_activity_db_store db a mid, ?_⟩
  intro hS
  rw [record_activity_db_capped db a mid cap hcap]
  have hB := activity_points_nonneg a.activity_type
  rw [min_comm]
  have h0 : 0 ≤ min (activity_points a.activity_type)
      (cap - (get_db_points_date_user db a.activity_type a.date a.user_id).sum) :=
    le_min hB (by omega)
  rw [max_eq_right h0]

/-- C1 (witness): the spec's own check C=6, S=5, B=3 ⇒ awarded 1, via the
amended theorem. -/
theorem record_activity_award_formula_witness :
    (record_activity_db [⟨"u", 1, 1, ActivityType.workout, 5⟩]
        ⟨ActivityType.workout, "u", 1, "ran"⟩ 9).2 =
      min (6 - (get_db_points_date_user [⟨"u", 1, 1, ActivityType.workout, 5⟩]
          ActivityType.workout 1 "u").sum)
        (activity_points ActivityType.workout)
    ∧ (record_activity_db [⟨"u", 1, 1, ActivityType.workout, 5⟩]
        ⟨ActivityType.workout, "u", 1, "ran"⟩ 9).1 =
      [⟨"u", 1, 1, ActivityType.workout, 5⟩] ++
        [⟨"u", 1, 9, ActivityType.workout,
          (record_activity_db [⟨"u", 1, 1, ActivityType.workout, 5⟩]
            ⟨ActivityType.workout, "u", 1, "ran"⟩ 9).2⟩]
    ∧ ((get_db_points_date_user [⟨"u", 1, 1, ActivityType.workout, 5⟩]
          ActivityType.workout 1 "u").sum ≤ 6 →
        (record_activity_db [⟨"u", 1, 1, ActivityType.workout, 5⟩]
            ⟨ActivityType.workout, "u", 1, "ran"⟩ 9).2 =
          max 0 (min (activity_points ActivityType.workout)
            (6 - (get_db_points_date_user [⟨"u", 1, 1, ActivityType.workout, 5⟩]
              ActivityType.workout 1 "u").sum))) :=
  record_activity_award_formula [⟨"u", 1, 1, ActivityType.workout, 5⟩]
    ⟨ActivityType.workout, "u", 1, "ran"⟩ 9 6 (by decide)

/-- C4: the date stored for a candidate whose date the classifier leaves
unspecified is the process-start date (the pydantic class-body default
`datetime.date.today()` evaluated at module import), not the send date of
the message being processed: with process start on day 100 and a message
sent on day 107, the stored date is 100 ≠ 107. -/
theorem default_date_is_process_start :
    parseClassifierDate 100 Option.none = 100
    ∧ parseClassifierDate 100 Option.none ≠
        (⟨55, "alice", false, "challenges", "ran 2 mi".toList, [], 107⟩ : Message).send_date := by
  decide

/-- C2: if any persisted record carries the message's id, `parse_message`
makes no classifier call and leaves the store untouched; and — for any
deterministic classifier oracle — running the pipeline a second time on
the same message produces exactly the store of the first run. -/
theorem replay_guard_idempotent (oracle : Message → LLMResult) (db : Store)
    (m : Message) :
    ((∃ r ∈ db, r.message_id = m.id) →
        (parse_message oracle db m).llm_called = false ∧
        (parse_message oracle db m).store = db)
    ∧ (parse_message oracle (parse_message oracle db m).store m).store =
        (parse_message oracle db m).store := by
  constructor
  · intro h
    rw [parse_message_seen oracle db m (get_db_message_id_isSome db m.id h)]
    exact ⟨rfl, rfl⟩
  · by_cases h1 : m.author_is_bot
    · simp [parse_message, h1]
    · by_cases h2 : m.channel_name = "challenges"
      · by_cases h3 : (m.content.all fun c => c.isWhitespace) = true
        · simp [parse_message, h1, h2, h3]
        · by_cases h4 : (get_db_message_id db m.id).isSome = true
          · have hs : (parse_message oracle db m).store = db := by
              rw [parse_message_seen oracle db m h4]
            rw [hs]
            exact hs
          · have h1' : m.author_is_bot = false := by
              cases hb : m.author_is_bot
              · rfl
              · exact absurd hb h1
            have h3' : (m.content.all fun c => c.isWhitespace) = false := by
              cases hb : (m.content.all fun c => c.isWhitespace)
              · rfl
              · exact absurd hb h3
            have h4' : get_db_message_id db m.id = Option.none := by
              cases hg : get_db_message_id db m.id
              · rfl
              · exact absurd (by rw [hg]; rfl) h4
            cases ho : oracle { m with content := normalizeMentions m.content m.mentions } with
            | err e =>
                have hs : (parse_message oracle db m).store = db := by
                  rw [parse_message_err oracle db m h1' h2 h3' h4' e ho]
                rw [hs]
                exact hs
            | ok rid resp =>
                have hstore1 : (parse_message oracle db m).store =
                    (recordActivities m.id (db, []) resp.activities).1 := by
                  rw [parse_message_ok oracle db m h1' h2 h3' h4' rid resp ho]
                rw [hstore1]
                obtain ⟨extra, hst, hlen, hmid⟩ :=
                  recordActivities_store m.id resp.activities db []
                cases hacts : resp.activities with
                | nil =>
                    rw [hacts] at hst hlen
                    have hextra : extra = [] := List.length_eq_zero.mp (by rw [hlen]; rfl)
                    rw [hextra, List.append_nil] at hst
                    rw [hst, hstore1, hacts, hst]
                | cons a as =>
                    rw [hacts] at hst hlen
                    have hne : extra ≠ [] := by
                      intro hcontra
                      rw [hcontra] at hlen
                      simp at hlen
                    obtain ⟨r0, extra', rfl⟩ := List.exists_cons_of_ne_nil hne
                    have hmem : ∃ r ∈ (recordActivities m.id (db, []) (a :: as)).1,
                        r.message_id = m.id := by
                      refine ⟨r0, ?_, hmid r0 (List.mem_cons_self r0 extra')⟩
                      rw [hst]
                      exact List.mem_append_right db (List.mem_cons_self r0 extra')
                    rw [parse_message_seen oracle _ m
                      (get_db_message_id_isSome _ m.id hmem)]
      · simp [parse_message, h1, h2]

/-- C2 (witness): a store already holding a row for message 42 is left
unchanged with no classifier call, and replaying is idempotent. -/
theorem replay_guard_idempotent_witness :
    ((parse_message (fun _ => LLMResult.ok "r" ⟨[]⟩)
        [⟨"u", 1, 42, ActivityType.workout, 3⟩]
        ⟨42, "u", false, "challenges", "ran".toList, [], 1⟩).llm_called = false ∧
      (parse_message (fun _ => LLMResult.ok "r" ⟨[]⟩)
        [⟨"u", 1, 42, ActivityType.workout, 3⟩]
        ⟨42, "u", false, "challenges", "ran".toList, [], 1⟩).store =
        [⟨"u", 1, 42, ActivityType.workout, 3⟩])
    ∧ (parse_message (fun _ => LLMResult.ok "r" ⟨[]⟩)
        (parse_message (fun _ => LLMResult.ok "r" ⟨[]⟩)
          [⟨"u", 1, 42, ActivityType.workout, 3⟩]
          ⟨42, "u", false, "challenges", "ran".toList, [], 1⟩).store
        ⟨42, "u", false, "challenges", "ran".toList, [], 1⟩).store =
      (parse_message (fun _ => LLMResult.ok "r" ⟨[]⟩)
        [⟨"u", 1, 42, ActivityType.workout, 3⟩]
        ⟨42, "u", false, "challenges", "ran".toList, [], 1⟩).store :=
  ⟨(replay_guard_idempotent (fun _ => LLMResult.ok "r" ⟨[]⟩)
      [⟨"u", 1, 42, ActivityType.workout, 3⟩]
      ⟨42, "u", false, "challenges", "ran".toList, [], 1⟩).1 (by decide),
    (replay_guard_idempotent (fun _ => LLMResult.ok "r" ⟨[]⟩)
      [⟨"u", 1, 42, ActivityType.workout, 3⟩]
      ⟨42, "u", false, "challenges", "ran".toList, [], 1⟩).2⟩

/-- C3: when the classifier backend reports an error on a message that
passed the guards, `get_llm_response` returns the distinguishable
no-result `Option.none` (not a response with zero activities), the run
ends in the error outcome, the store is unchanged — nothing is persisted —
and the message id is still absent from the store, so a later delivery or
replay will process it again. -/
theorem classifier_error_leaves_store_unchanged (oracle : Message → LLMResult)
    (db : Store) (m : Message) (e : String)
    (hbot : m.author_is_bot = false)
    (hch : m.channel_name = "challenges")
    (hcontent : (m.content.all fun c => c.isWhitespace) = false)
    (hguard : get_db_message_id db m.id = Option.none)
    (he : oracle { m with content := normalizeMentions m.content m.mentions } =
      LLMResult.err e) :
    get_llm_response
        (oracle { m with content := normalizeMentions m.content m.mentions }) = Option.none
    ∧ get_llm_response
        (oracle { m with content := normalizeMentions m.content m.mentions }) ≠ some ⟨[]⟩
    ∧ (parse_message oracle db m).outcome = ParseOutcome.errored
    ∧ (parse_message oracle db m).store = db
    ∧ get_db_message_id ((parse_message oracle db m).store) m.id = Option.none := by
  have hp := parse_message_err oracle db m hbot hch hcontent hguard e he
  refine ⟨by rw [he]; rfl, by rw [he]; exact fun hcontra => Option.noConfusion hcontra,
    by rw [hp], by rw [hp], ?_⟩
  rw [hp]
  exact hguard

/-- C3 (witness): a concrete erroring backend on a concrete fresh message. -/
theorem classifier_error_leaves_store_unchanged_witness :
    get_llm_response
        ((fun _ => LLMResult.err "boom")
          { (⟨7, "u", false, "challenges", "pt".toList, [], 3⟩ : Message) with
            content := normalizeMentions "pt".toList [] }) = Option.none
    ∧ get_llm_response
        ((fun _ => LLMResult.err "boom")
          { (⟨7, "u", false, "challenges", "pt".toList, [], 3⟩ : Message) with
            content := normalizeMentions "pt".toList [] }) ≠ some ⟨[]⟩
    ∧ (parse_message (fun _ => LLMResult.err "boom") []
        ⟨7, "u", false, "challenges", "pt".toList, [], 3⟩).outcome = ParseOutcome.errored
    ∧ (parse_message (fun _ => LLMResult.err "boom") []
        ⟨7, "u", false, "challenges", "pt".toList, [], 3⟩).store = []
    ∧ get_db_message_id ((parse_message (fun _ => LLMResult.err "boom") []
        ⟨7, "u", false, "challenges", "pt".toList, [], 3⟩).store) 7 = Option.none :=
  classifier_error_leaves_store_unchanged (fun _ => LLMResult.err "boom") []
    ⟨7, "u", false, "challenges", "pt".toList, [], 3⟩ "boom"
    rfl rfl (by decide) rfl rfl

/-- C9: when the classifier resolves a guard-passing message to a `none`
activity, the pipeline still persists a record for that message with zero
points, and the message is thereby marked processed: a second run skips it
with no classifier call and no store change. -/
theorem none_activity_persisted_zero_points (oracle : Message → LLMResult)
    (db : Store) (m : Message) (rid : String) (resp : Response)
    (a : ActivityLogResponse)
    (hbot : m.author_is_bot = false)
    (hch : m.channel_name = "challenges")
    (hcontent : (m.content.all fun c => c.isWhitespace) = false)
    (hguard : get_db_message_id db m.id = Option.none)
    (ho : oracle { m with content := normalizeMentions m.content m.mentions } =
      LLMResult.ok rid resp)
    (ha : a ∈ resp.activities)
    (hnone : a.activity_type = ActivityType.none) :
    (∃ r ∈ (parse_message oracle db m).store,
        r.message_id = m.id ∧ r.activity_type = ActivityType.none ∧ r.points = 0)
    ∧ (parse_message oracle (parse_message oracle db m).store m).store =
        (parse_message oracle db m).store
    ∧ (parse_message oracle (parse_message oracle db m).store m).llm_called = false := by
  have hp := parse_message_ok oracle db m hbot hch hcontent hguard rid resp ho
  have hstore : (parse_message oracle db m).store =
      (recordActivities m.id (db, []) resp.activities).1 := by rw [hp]
  obtain ⟨r, hr, hrprops⟩ :=
    recordActivities_none_record m.id resp.activities a ha hnone db []
  have hmem : ∃ r' ∈ (parse_message oracle db m).store, r'.message_id = m.id := by
    rw [hstore]
    exact ⟨r, hr, hrprops.1⟩
  have hseen := parse_message_seen oracle ((parse_message oracle db m).store) m
    (get_db_message_id_isSome _ m.id hmem)
  refine ⟨?_, by rw [hseen], by rw [hseen]⟩
  rw [hstore]
  exact ⟨r, hr, hrprops⟩

/-- C9 (witness): a concrete backend classifying "just a joke" as `none`;
the pipeline persists the zero-point row and never reprocesses. -/
theorem none_activity_persisted_zero_points_witness :
    (∃ r ∈ (parse_message
        (fun _ => LLMResult.ok "r" ⟨[⟨ActivityType.none, "u", 3, "joke"⟩]⟩) []
        ⟨11, "u", false, "challenges", "just a joke".toList, [], 3⟩).store,
      r.message_id = 11 ∧ r.activity_type = ActivityType.none ∧ r.points = 0)
    ∧ (parse_message (fun _ => LLMResult.ok "r" ⟨[⟨ActivityType.none, "u", 3, "joke"⟩]⟩)
        (parse_message (fun _ => LLMResult.ok "r" ⟨[⟨ActivityType.none, "u", 3, "joke"⟩]⟩) []
          ⟨11, "u", false, "challenges", "just a joke".toList, [], 3⟩).store
        ⟨11, "u", false, "challenges", "just a joke".toList, [], 3⟩).store =
      (parse_message (fun _ => LLMResult.ok "r" ⟨[⟨ActivityType.none, "u", 3, "joke"⟩]⟩) []
        ⟨11, "u", false, "challenges", "just a joke".toList, [], 3⟩).store
    ∧ (parse_message (fun _ => LLMResult.ok "r" ⟨[⟨ActivityType.none, "u", 3, "joke"⟩]⟩)
        (parse_message (fun _ => LLMResult.ok "r" ⟨[⟨ActivityType.none, "u", 3, "joke"⟩]⟩) []
          ⟨11, "u", false, "challenges", "just a joke".toList, [], 3⟩).store
        ⟨11, "u", false, "challenges", "just a joke".toList, [], 3⟩).llm_called = false :=
  none_activity_persisted_zero_points
    (fun _ => LLMResult.ok "r" ⟨[⟨ActivityType.none, "u", 3, "joke"⟩]⟩) []
    ⟨11, "u", false, "challenges", "just a joke".toList, [], 3⟩ "r"
    ⟨[⟨ActivityType.none, "u", 3, "joke"⟩]⟩ ⟨ActivityType.none, "u", 3, "joke"⟩
    rfl rfl (by decide) rfl rfl (by decide) rfl

/-- C10: on every store reachable from the empty table via the recorder
pipeline, the summed points for any fixed (user, date, capped type) never
exceed the cap (workout 6, watching 2). -/
theorem reachable_store_caps_respected (db : Store) (h : ReachableStore db)
    (t : ActivityType) (cap : Int) (hcap : max_activity_points t = some cap)
    (u : String) (d : Nat) :
    (get_db_points_date_user db t d u).sum ≤ cap := by
  induction h with
  | empty =>
      have hpos : 0 ≤ cap := by
        cases t <;> simp [max_activity_points] at hcap <;> omega
      simpa [get_db_points_date_user] using hpos
  | step oracle m hdb ih =>
      exact parse_message_cap oracle _ m t cap hcap d u ih

/-- C10 (witness): the invariant instantiated at a concrete reachable
store — the result of one pipeline step on the empty store that records
three workout candidates (points 3, 3, 0). -/
theorem reachable_store_caps_respected_witness :
    (get_db_points_date_user
      (parse_message
        (fun _ => LLMResult.ok "r"
          ⟨[⟨ActivityType.workout, "u", 4, "gym"⟩, ⟨ActivityType.workout, "u", 4, "run"⟩,
            ⟨ActivityType.workout, "u", 4, "bike"⟩]⟩) []
        ⟨21, "u", false, "challenges", "triple workout".toList, [], 4⟩).store
      ActivityType.workout 4 "u").sum ≤ 6 :=
  reachable_store_caps_respected
    (parse_message
      (fun _ => LLMResult.ok "r"
        ⟨[⟨ActivityType.workout, "u", 4, "gym"⟩, ⟨ActivityType.workout, "u", 4, "run"⟩,
          ⟨ActivityType.workout, "u", 4, "bike"⟩]⟩) []
      ⟨21, "u", false, "challenges", "triple workout".toList, [], 4⟩).store
    (ReachableStore.step
      (fun _ => LLMResult.ok "r"
        ⟨[⟨ActivityType.workout, "u", 4, "gym"⟩, ⟨ActivityType.workout, "u", 4, "run"⟩,
          ⟨ActivityType.workout, "u", 4, "bike"⟩]⟩)
      ⟨21, "u", false, "challenges", "triple workout".toList, [], 4⟩
      ReachableStore.empty)
    ActivityType.workout 6 rfl "u" 4

/-- C8 (counterexample): the feedback marker is emitted once per persisted
record, not once per distinct activity type: a message classified into
three watching records triggers three `add_reaction("📺")` calls, where the
claim allows a single watching marker emission. -/
theorem three_watching_records_three_emissions :
    (parse_message
        (fun _ => LLMResult.ok "r"
          ⟨[⟨ActivityType.watching, "u", 1, "g1"⟩, ⟨ActivityType.watching, "u", 1, "g2"⟩,
            ⟨ActivityType.watching, "u", 1, "g3"⟩]⟩) []
        ⟨5, "u", false, "challenges", "watched three games".toList, [], 1⟩).emissions.count
      "📺" = 3
    ∧ ¬ ((parse_message
        (fun _ => LLMResult.ok "r"
          ⟨[⟨ActivityType.watching, "u", 1, "g1"⟩, ⟨ActivityType.watching, "u", 1, "g2"⟩,
            ⟨ActivityType.watching, "u", 1, "g3"⟩]⟩) []
        ⟨5, "u", false, "challenges", "watched three games".toList, [], 1⟩).emissions.count
      "📺" ≤ 1) := by
  decide

/-- C8 (amended): the pipeline performs one marker emission per persisted
non-`none` record — all records of one type re-emitting the same
type-specific emoji — so after the platform's set semantics deduplicates
reactions, the message bears at most one marker per distinct activity
type. -/
theorem one_emission_per_record (oracle : Message → LLMResult) (db : Store)
    (m : Message) (rid : String) (resp : Response)
    (hbot : m.author_is_bot = false)
    (hch : m.channel_name = "challenges")
    (hcontent : (m.content.all fun c => c.isWhitespace) = false)
    (hguard : get_db_message_id db m.id = Option.none)
    (ho : oracle { m with content := normalizeMentions m.content m.mentions } =
      LLMResult.ok rid resp) :
    (parse_message oracle db m).emissions =
      (resp.activities.filter fun a => a.activity_type != ActivityType.none).map
        (fun a => (activity_emoji_map a.activity_type).getD "❓")
    ∧ ∀ e : String, ((parse_message oracle db m).emissions.dedup.count e ≤ 1) := by
  have hp := parse_message_ok oracle db m hbot hch hcontent hguard rid resp ho
  constructor
  · rw [hp]
    have := recordActivities_emissions m.id resp.activities db []
    simpa using this
  · intro e
    exact List.nodup_iff_count_le_one.mp (List.nodup_dedup _) e

/-- C8 (witness): the amended statement at the three-watching-records
backend: three emissions, one distinct marker. -/
theorem one_emission_per_record_witness :
    (parse_message
        (fun _ => LLMResult.ok "s"
          ⟨[⟨ActivityType.watching, "v", 2, "g1"⟩, ⟨ActivityType.watching, "v", 2, "g2"⟩,
            ⟨ActivityType.watching, "v", 2, "g3"⟩]⟩) []
        ⟨6, "v", false, "challenges", "film night".toList, [], 2⟩).emissions =
      (([⟨ActivityType.watching, "v", 2, "g1"⟩, ⟨ActivityType.watching, "v", 2, "g2"⟩,
          ⟨ActivityType.watching, "v", 2, "g3"⟩] :
            List ActivityLogResponse).filter
          fun a => a.activity_type != ActivityType.none).map
        (fun a => (activity_emoji_map a.activity_type).getD "❓")
    ∧ ∀ e : String, ((parse_message
        (fun _ => LLMResult.ok "s"
          ⟨[⟨ActivityType.watching, "v", 2, "g1"⟩, ⟨ActivityType.watching, "v", 2, "g2"⟩,
            ⟨ActivityType.watching, "v", 2, "g3"⟩]⟩) []
        ⟨6, "v", false, "challenges", "film night".toList, [], 2⟩).emissions.dedup.count e ≤ 1) :=
  one_emission_per_record
    (fun _ => LLMResult.ok "s"
      ⟨[⟨ActivityType.watching, "v", 2, "g1"⟩, ⟨ActivityType.watching, "v", 2, "g2"⟩,
        ⟨ActivityType.watching, "v", 2, "g3"⟩]⟩) []
    ⟨6, "v", false, "challenges", "film night".toList, [], 2⟩ "s"
    ⟨[⟨ActivityType.watching, "v", 2, "g1"⟩, ⟨ActivityType.watching, "v", 2, "g2"⟩,
      ⟨ActivityType.watching, "v", 2, "g3"⟩]⟩
    rfl rfl (by decide) rfl rfl

/-- C6 (counterexample): the startup history replay runs the pipeline
outside the lock: replaying a single fresh message makes a classifier call
whose trace fails the under-lock check. -/
theorem replay_classifier_call_unlocked :
    (on_ready_trace (fun _ => LLMResult.ok "r" ⟨[]⟩) []
        [⟨9, "u", false, "challenges", "pt".toList, [], 1⟩]).contains Ev.llmCall = true
    ∧ lockedAt (on_ready_trace (fun _ => LLMResult.ok "r" ⟨[]⟩) []
        [⟨9, "u", false, "challenges", "pt".toList, [], 1⟩]) 0 = false := by
  decide

/-- C6 (amended): every classifier call made while handling a live message
(`on_message`) runs under the global `llm_lock`, but the startup history
replay in `on_ready` invokes the pipeline without acquiring the lock: any
replay trace that performs a classifier call fails the under-lock check. -/
theorem lock_serializes_on_message_only (oracle : Message → LLMResult)
    (db : Store) (m : Message) (msgs : List Message) :
    lockedAt (on_message_trace oracle db m) 0 = true
    ∧ ((on_ready_trace oracle db msgs).contains Ev.llmCall = true →
        lockedAt (on_ready_trace oracle db msgs) 0 = false) := by
  constructor
  · by_cases hbot : m.author_is_bot
    · simp [on_message_trace, hbot, lockedAt]
    · cases hc : (parse_message oracle db m).llm_called <;>
        simp [on_message_trace, hbot, hc, lockedAt]
  · intro hcall
    exact lockedAt_zero_of_calls _ (on_ready_trace_events oracle msgs db) hcall

/-- C6 (witness): the amended statement at a concrete live message and a
concrete replay that does call the classifier. -/
theorem lock_serializes_on_message_only_witness :
    lockedAt (on_message_trace (fun _ => LLMResult.ok "w" ⟨[]⟩) []
      ⟨14, "u", false, "challenges", "mufa".toList, [], 2⟩) 0 = true
    ∧ lockedAt (on_ready_trace (fun _ => LLMResult.ok "w" ⟨[]⟩) []
        [⟨14, "u", false, "challenges", "mufa".toList, [], 2⟩]) 0 = false :=
  ⟨(lock_serializes_on_message_only (fun _ => LLMResult.ok "w" ⟨[]⟩) []
      ⟨14, "u", false, "challenges", "mufa".toList, [], 2⟩
      [⟨14, "u", false, "challenges", "mufa".toList, [], 2⟩]).1,
    (lock_serializes_on_message_only (fun _ => LLMResult.ok "w" ⟨[]⟩) []
      ⟨14, "u", false, "challenges", "mufa".toList, [], 2⟩
      [⟨14, "u", false, "challenges", "mufa".toList, [], 2⟩]).2 (by decide)⟩

/-- C5 (counterexample): when both platform encodings of the same user's
mention appear in one text, the loop replaces only the bang form: the
plain-form token survives normalization, so not every occurrence of the
participant's mention token becomes `@<handle>`. -/
theorem mention_both_encodings_not_normalized :
    normalizeMentions ("<@!1> and <@1>".toList) [⟨1, "bob".toList⟩] =
      "@bob and <@1>".toList
    ∧ strIn (mentionPlain 1)
        (normalizeMentions ("<@!1> and <@1>".toList) [⟨1, "bob".toList⟩]) = true
    ∧ normalizeMentions ("<@!1> and <@1>".toList) [⟨1, "bob".toList⟩] ≠
      "@bob and @bob".toList := by
  decide

/-- C5 (amended): when the mentioned participant's token appears in only
one of its two platform encodings, every occurrence is replaced by
`@<handle>`, and the two encodings normalize to the identical display
string.  The content is presented as `<`-free segments glued with the
mention token; the hypotheses say the segments and the rendered id avoid
the token delimiter. -/
theorem mention_single_encoding_normalizes (segs : List (List Char)) (u : Mention)
    (hsegs : ∀ s ∈ segs, ∀ c ∈ s, c ≠ '<')
    (hid : ∀ c ∈ (toString u.id).toList, c.isDigit = true) :
    normalizeMention (glueWith (mentionBang u.id) segs) u =
      glueWith ('@' :: u.name) segs
    ∧ normalizeMention (glueWith (mentionPlain u.id) segs) u =
      glueWith ('@' :: u.name) segs := by
  have hnorm : ∀ content : List Char, normalizeMention content u =
      if strIn (mentionBang u.id) content then
        replaceAll (mentionBang u.id) ('@' :: u.name) content
      else replaceAll (mentionPlain u.id) ('@' :: u.name) content := by
    intro content
    unfold normalizeMention
    by_cases h : strIn (mentionBang u.id) content <;> simp [h]
  constructor
  · cases segs with
    | nil =>
        rw [hnorm]
        have h0 : strIn (mentionBang u.id) (glueWith (mentionBang u.id) []) = false := rfl
        rw [if_neg (by rw [h0]; exact fun hcontra => nomatch hcontra)]
        rfl
    | cons s rest =>
        cases rest with
        | nil =>
            have hs : ∀ c ∈ s, c ≠ '<' := hsegs s (List.mem_cons_self s [])
            rw [hnorm]
            have h0 : strIn (mentionBang u.id) (glueWith (mentionBang u.id) [s]) = false :=
              strIn_head_free '<' ('@' :: '!' :: ((toString u.id).toList ++ ['>'])) s hs
            rw [if_neg (by rw [h0]; exact fun hcontra => nomatch hcontra)]
            exact replaceAll_head_free '<' ('@' :: ((toString u.id).toList ++ ['>']))
              ('@' :: u.name) s hs
        | cons a rest' =>
            have hs : ∀ c ∈ s, c ≠ '<' := hsegs s (List.mem_cons_self s _)
            rw [hnorm]
            have h1 : strIn (mentionBang u.id)
                (glueWith (mentionBang u.id) (s :: a :: rest')) = true :=
              strIn_glueWith_sep '<' ('@' :: '!' :: ((toString u.id).toList ++ ['>']))
                s a rest' hs
            rw [if_pos h1]
            exact glueWith_replace '<' ('@' :: '!' :: ((toString u.id).toList ++ ['>']))
              ('@' :: u.name) (s :: a :: rest') hsegs
  · rw [hnorm]
    have h0 : strIn (mentionBang u.id) (glueWith (mentionPlain u.id) segs) = false :=
      strIn_bang_glueWith_plain u.id hid segs hsegs
    rw [if_neg (by rw [h0]; exact fun hcontra => nomatch hcontra)]
    exact glueWith_replace '<' ('@' :: ((toString u.id).toList ++ ['>']))
      ('@' :: u.name) segs hsegs

/-- C5 (witness): the amended statement at a concrete two-segment content
for user 7 named "ann": both encodings normalize to "hey @ann nice". -/
theorem mention_single_encoding_normalizes_witness :
    normalizeMention (glueWith (mentionBang 7) ["hey ".toList, " nice".toList])
        ⟨7, "ann".toList⟩ =
      glueWith ('@' :: "ann".toList) ["hey ".toList, " nice".toList]
    ∧ normalizeMention (glueWith (mentionPlain 7) ["hey ".toList, " nice".toList])
        ⟨7, "ann".toList⟩ =
      glueWith ('@' :: "ann".toList) ["hey ".toList, " nice".toList] :=
  mention_single_encoding_normalizes ["hey ".toList, " nice".toList]
    ⟨7, "ann".toList⟩ (by decide) (by decide)
